import Mathlib

/-!
# Verification of the sourcify server core against its specification

Shallow embedding of the verification-pipeline code of the repository:

* `PendingContract` (monitor) — decentralized assembly of sources,
* `verification.common.ts` — session file saving and content ids,
* `VerificationService.ts` — the single-flight verification gate,
* `RepositoryV1Service.ts` — the content-addressed match store,
* `verify.stateless.handlers.ts` — the extra-file recovery path.

Machine-level primitives the code calls (SHA-1 from node crypto, the JSON
string serialization of `JSON.stringify`) are implemented executably so that
content ids can be evaluated on concrete inputs.  The keccak256 function from
ethers is kept as an explicit function parameter: every statement about the
assembly phase is quantified over it.
-/

namespace Sourcify

/-! ## SHA-1 (FIPS 180-4), as invoked by `createHash("sha1").update(s).digest("hex")` -/

/-- Rotate a 32-bit word left by `n` bits. -/
def rotl32 (n x : Nat) : Nat :=
  ((x <<< n) ||| (x >>> (32 - n))) % 4294967296

/-- UTF-8 encoding of one character, as node hashes strings. -/
def utf8BytesOfChar (c : Char) : List Nat :=
  let n := c.toNat
  if n < 128 then [n]
  else if n < 2048 then
    [192 ||| (n >>> 6), 128 ||| (n &&& 63)]
  else if n < 65536 then
    [224 ||| (n >>> 12), 128 ||| ((n >>> 6) &&& 63), 128 ||| (n &&& 63)]
  else
    [240 ||| (n >>> 18), 128 ||| ((n >>> 12) &&& 63),
     128 ||| ((n >>> 6) &&& 63), 128 ||| (n &&& 63)]

/-- The UTF-8 bytes of a string. -/
def strBytes (s : String) : List Nat :=
  s.data.flatMap utf8BytesOfChar

/-- Big-endian 8-byte encoding of a natural number (the SHA-1 length field). -/
def be8 (n : Nat) : List Nat :=
  [(n >>> 56) % 256, (n >>> 48) % 256, (n >>> 40) % 256, (n >>> 32) % 256,
   (n >>> 24) % 256, (n >>> 16) % 256, (n >>> 8) % 256, n % 256]

/-- SHA-1 message padding: append 0x80, zeros to 56 mod 64, then the bit length. -/
def sha1Pad (msg : List Nat) : List Nat :=
  let len := msg.length
  let zeros := (120 - ((len + 1) % 64)) % 64
  msg ++ [128] ++ List.replicate zeros 0 ++ be8 (8 * len)

/-- Combine four bytes into one big-endian 32-bit word. -/
def bytesToWords : List Nat → List Nat
  | b0 :: b1 :: b2 :: b3 :: rest =>
      ((b0 <<< 24) ||| (b1 <<< 16) ||| (b2 <<< 8) ||| b3) :: bytesToWords rest
  | _ => []

/-- The SHA-1 round function. -/
def sha1F (t b c d : Nat) : Nat :=
  if t < 20 then (b &&& c) ||| ((b ^^^ 4294967295) &&& d)
  else if t < 40 then b ^^^ c ^^^ d
  else if t < 60 then (b &&& c) ||| (b &&& d) ||| (c &&& d)
  else b ^^^ c ^^^ d

/-- The SHA-1 round constants. -/
def sha1K (t : Nat) : Nat :=
  if t < 20 then 1518500249
  else if t < 40 then 1859775393
  else if t < 60 then 2400959708
  else 3395469782

/-- Message-schedule expansion from 16 to 80 words. -/
def sha1Expand (ws : List Nat) : List Nat :=
  (List.range 64).foldl
    (fun ws _ =>
      let l := ws.length
      ws ++ [rotl32 1 ((ws.getD (l - 3) 0) ^^^ (ws.getD (l - 8) 0) ^^^
                       (ws.getD (l - 14) 0) ^^^ (ws.getD (l - 16) 0))])
    ws

/-- One SHA-1 compression over a 64-byte block. -/
def sha1Compress (h : List Nat) (block : List Nat) : List Nat :=
  let ws := sha1Expand (bytesToWords block)
  let init := (h.getD 0 0, h.getD 1 0, h.getD 2 0, h.getD 3 0, h.getD 4 0)
  let fin := (List.range 80).foldl
    (fun st t =>
      let (a, b, c, d, e) := st
      let temp := (rotl32 5 a + sha1F t b c d + e + sha1K t + ws.getD t 0) % 4294967296
      (temp, a, rotl32 30 b, c, d))
    init
  let (a, b, c, d, e) := fin
  [(h.getD 0 0 + a) % 4294967296, (h.getD 1 0 + b) % 4294967296,
   (h.getD 2 0 + c) % 4294967296, (h.getD 3 0 + d) % 4294967296,
   (h.getD 4 0 + e) % 4294967296]

/-- Fold SHA-1 compression over the 64-byte blocks of a padded message.  The
fuel argument (instantiated with the message length, an upper bound on the
number of blocks) keeps the recursion structural so that digests reduce inside
the kernel. -/
def sha1Blocks : Nat → List Nat → List Nat → List Nat
  | 0, h, _ => h
  | _, h, [] => h
  | fuel + 1, h, m :: rest =>
      sha1Blocks fuel (sha1Compress h ((m :: rest).take 64)) ((m :: rest).drop 64)

/-- SHA-1 digest of a byte list, as five 32-bit words. -/
def sha1Words (msg : List Nat) : List Nat :=
  let padded := sha1Pad msg
  sha1Blocks padded.length
    [1732584193, 4023233417, 2562383102, 271733878, 3285377520] padded

/-- One lowercase hexadecimal digit. -/
def hexDigit (n : Nat) : Char :=
  if n < 10 then Char.ofNat (48 + n) else Char.ofNat (87 + n)

/-- Lowercase 8-hex-digit rendering of a 32-bit word. -/
def hexWord32 (w : Nat) : List Char :=
  [hexDigit ((w >>> 28) % 16), hexDigit ((w >>> 24) % 16), hexDigit ((w >>> 20) % 16),
   hexDigit ((w >>> 16) % 16), hexDigit ((w >>> 12) % 16), hexDigit ((w >>> 8) % 16),
   hexDigit ((w >>> 4) % 16), hexDigit (w % 16)]

/-- `createHash("sha1").update(s).digest("hex")`: the 40-character lowercase
hexadecimal SHA-1 digest of the UTF-8 bytes of `s`. -/
def sha1Hex (s : String) : String :=
  String.mk ((sha1Words (strBytes s)).flatMap hexWord32)

set_option maxRecDepth 4096

/-- Sanity anchors for the SHA-1 implementation (FIPS 180-4 test vectors). -/
theorem sha1Hex_abc : sha1Hex "abc" = "a9993e364706816aba3e25717850c26c9cd0d89d" := by
  decide

theorem sha1Hex_empty : sha1Hex "" = "da39a3ee5e6b4b0d3255bfef95601890afd80709" := by
  decide

/-! ## JSON string serialization, as performed by `JSON.stringify` on a string -/

/-- Two lowercase hex digits of a byte below 256. -/
def hexByte (n : Nat) : List Char :=
  [hexDigit ((n >>> 4) % 16), hexDigit (n % 16)]

/-- The escape of one character inside a JSON string literal, following the
serialization of `JSON.stringify`. -/
def jsonEscapeChar (c : Char) : List Char :=
  if c = '"' then ['\\', '"']
  else if c = '\\' then ['\\', '\\']
  else if c = Char.ofNat 8 then ['\\', 'b']
  else if c = Char.ofNat 9 then ['\\', 't']
  else if c = Char.ofNat 10 then ['\\', 'n']
  else if c = Char.ofNat 12 then ['\\', 'f']
  else if c = Char.ofNat 13 then ['\\', 'r']
  else if c.toNat < 32 then '\\' :: 'u' :: '0' :: '0' :: hexByte c.toNat
  else [c]

/-- `JSON.stringify` applied to a string: the quoted, escaped JSON string
literal. -/
def jsonQuote (s : String) : String :=
  String.mk ('"' :: s.data.flatMap jsonEscapeChar ++ ['"'])

theorem jsonQuote_abc : jsonQuote "abc" = "\"abc\"" := by decide

/-- Boolean string prefix over the character lists. -/
def strIsPrefix (p s : String) : Bool :=
  p.data.isPrefixOf s.data

/-- Drop the first `n` characters of a string. -/
def strDrop (s : String) (n : Nat) : String :=
  String.mk (s.data.drop n)

/-! ## Association lists

JavaScript objects used as maps (`session.inputFiles`, `pendingSources`,
`fetchedSources`, the repository tree) are embedded as insertion-ordered
association lists. -/

/-- Lookup in a JavaScript-object-as-map. -/
def alookup {α : Type} (m : List (String × α)) (k : String) : Option α :=
  (m.find? (fun p => p.1 == k)).map (fun p => p.2)

/-- `delete obj[k]`. -/
def aerase {α : Type} (m : List (String × α)) (k : String) : List (String × α) :=
  m.filter (fun p => p.1 != k)

/-- The per-entry rewrite of `aset` when the key is already present. -/
def asetFn {α : Type} (k : String) (v : α) (p : String × α) : String × α :=
  if p.1 == k then (k, v) else p

/-- `obj[k] = v`: replace in place when the key exists, append otherwise. -/
def aset {α : Type} (m : List (String × α)) (k : String) (v : α) : List (String × α) :=
  if (m.find? (fun p => p.1 == k)).isSome then m.map (asetFn k v)
  else m ++ [(k, v)]

/-! ## Session file saving (`verification.common.ts`) -/

/-- A session input file: `{path, content}`.  The server keeps `content`
base64-encoded; its JavaScript `.length` is the stored string length. -/
structure PathContent where
  path : String
  content : String
deriving DecidableEq, Repr

/-- `MAX_SESSION_SIZE = 50 * 1024 * 1024` (50 MiB). -/
def MAX_SESSION_SIZE : Nat := 50 * 1024 * 1024

/-- `generateId(obj)`: `sha1(JSON.stringify(obj))` in hex.  Both call sites of
the source pass a string (`pc.content` in `saveFiles`, and
`JSON.stringify(contract.metadataRaw)` in `checkContractsInSession`), so the
embedding is specialized to string arguments; `JSON.stringify` of a string is
its quoted JSON literal. -/
def generateId (s : String) : String :=
  sha1Hex (jsonQuote s)

/-- The contract key used by `checkContractsInSession`:
`generateId(JSON.stringify(contract.metadataRaw))` where `metadataRaw` is the
raw metadata text. -/
def sessionContractId (metadataRaw : String) : String :=
  generateId (jsonQuote metadataRaw)

/-- Total `.length` of the contents in `session.inputFiles`. -/
def sessionFilesSize (files : List (String × PathContent)) : Nat :=
  (files.map (fun p => p.2.content.length)).sum

/-- The single insertion step of the `pathContents.forEach` loop of
`saveFiles`: id the content, insert when new. -/
def saveFilesStep (acc : List (String × PathContent) × Nat) (pc : PathContent) :
    List (String × PathContent) × Nat :=
  let newId := generateId pc.content
  if (alookup acc.1 newId).isSome then acc
  else (acc.1 ++ [(newId, pc)], acc.2 + 1)

/-- `saveFiles(pathContents, session)` of `verification.common.ts`: compute the
cumulative size (existing session files plus the whole incoming batch), throw
`PayloadTooLargeError` when it exceeds 50 MiB — before touching the session —
and otherwise insert each incoming file under `generateId(pc.content)` unless
that id is already present.  Returns the updated `inputFiles` and the count of
newly added files; the error case carries the untouched session map. -/
def saveFiles (pathContents : List PathContent) (inputFiles : List (String × PathContent)) :
    Except (List (String × PathContent)) (List (String × PathContent) × Nat) :=
  if sessionFilesSize inputFiles + (pathContents.map (fun pc => pc.content.length)).sum
      > MAX_SESSION_SIZE then
    .error inputFiles
  else .ok (pathContents.foldl saveFilesStep (inputFiles, 0))

/-! ## PendingContract (monitor, `src/unnamed/part_000`)

The keccak256 function of ethers (`id`) lives outside the embedded sources and
is passed everywhere as an explicit parameter `kec`. -/

/-- Canonical decentralized storage origins. -/
inductive StorageOrigin where
  | ipfs
  | swarmBzzr0
  | swarmBzzr1
deriving DecidableEq, Repr

/-- A decentralized storage content hash `(origin, hash)`. -/
structure FileHash where
  origin : StorageOrigin
  hash : String
deriving DecidableEq, Repr

/-- Modelled from the spec: `FileHash.fromUrl` of the monitor `util` module is
not under `src/`; per spec section 4.1 it accepts the forms `dweb:/ipfs/cid`,
`ipfs://cid`, `bzz-raw://hex`, `bzzr0://hex`, `bzzr1://hex` and returns null
for unknown schemes, canonicalizing the origin. -/
def fileHashFromUrl (url : String) : Option FileHash :=
  if strIsPrefix "dweb:/ipfs/" url then some ⟨.ipfs, strDrop url 11⟩
  else if strIsPrefix "ipfs://" url then some ⟨.ipfs, strDrop url 7⟩
  else if strIsPrefix "bzz-raw://" url then some ⟨.swarmBzzr1, strDrop url 10⟩
  else if strIsPrefix "bzzr0://" url then some ⟨.swarmBzzr0, strDrop url 8⟩
  else if strIsPrefix "bzzr1://" url then some ⟨.swarmBzzr1, strDrop url 8⟩
  else none

/-- One entry of a metadata source map: declared keccak, declared urls,
optional inline content. -/
structure SourceEntry where
  keccak256 : String
  urls : List String
  content : Option String
deriving DecidableEq, Repr

/-- The two source maps of a `PendingContract`. -/
structure PendingState where
  pendingSources : List (String × SourceEntry)
  fetchedSources : List (String × SourceEntry)
deriving DecidableEq, Repr

/-- JavaScript truthiness of an optional string (`undefined` and `""` are
falsy). -/
def strTruthy : Option String → Bool
  | some s => s ≠ ""
  | none => false

/-- Errors thrown inside `PendingContract.assemble` and
`movePendingToFetchedSources`. -/
inductive AssembleError where
  | sourceNotFound (name : String)
  | sourceHasNoContent (name : String)
  | keccakMismatch (name : String)
  | fetchFailed (name url : String)
deriving DecidableEq, Repr

/-- `movePendingToFetchedSources(sourceUnitName)`: throw when the name is not
in `pendingSources`, throw when its content is falsy, assert that the computed
keccak equals the declared `keccak256`, then copy the entry to
`fetchedSources` and delete it from `pendingSources`. -/
def movePendingToFetchedSources (kec : String → String) (st : PendingState)
    (name : String) : Except AssembleError PendingState :=
  match alookup st.pendingSources name with
  | none => .error (.sourceNotFound name)
  | some source =>
    if strTruthy source.content then
      match source.content with
      | some c =>
        if kec c = source.keccak256 then
          .ok ⟨aerase st.pendingSources name, aset st.fetchedSources name source⟩
        else .error (.keccakMismatch name)
      | none => .error (.sourceHasNoContent name)
    else .error (.sourceHasNoContent name)

/-- The fetcher registry: origin to fetch capability; a fetch either yields
the body or rejects. -/
def Fetchers : Type :=
  StorageOrigin → Option (FileHash → Except Unit String)

/-- `source.content = fetchedContent` aliasing: before the entry has been
moved, the mutated `source` object is the one stored in `pendingSources`;
after the move, the object is detached and the assignment is invisible in the
contract state. -/
def setContentIfPending (st : PendingState) (name body : String) : PendingState :=
  match alookup st.pendingSources name with
  | some source =>
      ⟨aset st.pendingSources name { source with content := some body }, st.fetchedSources⟩
  | none => st

/-- The `for (const url of source.urls || [])` loop of
`PendingContract.assemble`: skip a url without a parseable hash, skip a url
whose origin has no registered fetcher, propagate a rejected fetch as a thrown
error, and after every successful fetch set the content and call
`movePendingToFetchedSources` — with no break, so iteration continues past a
success.  Thrown errors carry the contract state at the point of the throw. -/
def processUrls (F : Fetchers) (kec : String → String) (name : String)
    (st : PendingState) : List String → Except (AssembleError × PendingState) PendingState
  | [] => .ok st
  | url :: rest =>
    match fileHashFromUrl url with
    | none => processUrls F kec name st rest
    | some fh =>
      match F fh.origin with
      | none => processUrls F kec name st rest
      | some fetcher =>
        match fetcher fh with
        | .error _ => .error (.fetchFailed name url, st)
        | .ok body =>
          let st' := setContentIfPending st name body
          match movePendingToFetchedSources kec st' name with
          | .error e => .error (e, st')
          | .ok st'' => processUrls F kec name st'' rest

/-- The per-source task of `PendingContract.assemble`: a source with (truthy)
inline content is moved directly; otherwise the declared urls are iterated. -/
def processSource (F : Fetchers) (kec : String → String) (st : PendingState)
    (name : String) : Except (AssembleError × PendingState) PendingState :=
  match alookup st.pendingSources name with
  | none => .error (.sourceNotFound name, st)
  | some source =>
    if strTruthy source.content then
      match movePendingToFetchedSources kec st name with
      | .error e => .error (e, st)
      | .ok st' => .ok st'
    else
      processUrls F kec name st source.urls

/-! ### The claimed behaviour of the url loop, for comparison (claim C1) -/

/-- The outcome of assembling one source as claim C1 describes it, including
the `invalid` and `missing` recording the claim attributes to `assemble`. -/
structure ClaimAssembleResult where
  state : PendingState
  invalid : List String
  missing : List String
deriving DecidableEq, Repr

/-- Modelled from the spec (the wording of claim C1), for comparison with the
source embedding `processUrls`: iterate the urls in order; skip a url that is
unparseable or has no fetcher; skip a failed fetch; on the first successful
fetch validate the keccak against the declared one — on mismatch record
`invalid[path]` and continue with the next url, on success move the entry to
`fetchedSources` and stop; if no url yielded a valid body, record
`missing[path]`. -/
def claimUrlLoop (F : Fetchers) (kec : String → String) (name : String)
    (entry : SourceEntry) (st : PendingState) (inv : List String) :
    List String → ClaimAssembleResult
  | [] => ⟨st, inv, [name]⟩
  | url :: rest =>
    match fileHashFromUrl url with
    | none => claimUrlLoop F kec name entry st inv rest
    | some fh =>
      match F fh.origin with
      | none => claimUrlLoop F kec name entry st inv rest
      | some fetcher =>
        match fetcher fh with
        | .error _ => claimUrlLoop F kec name entry st inv rest
        | .ok body =>
          if kec body = entry.keccak256 then
            ⟨⟨aerase st.pendingSources name,
              aset st.fetchedSources name { entry with content := some body }⟩,
             inv, []⟩
          else
            claimUrlLoop F kec name entry st
              (if inv.contains name then inv else inv ++ [name]) rest

/-- Assembly of one content-less source per claim C1. -/
def assembleSourceClaim (F : Fetchers) (kec : String → String) (st : PendingState)
    (name : String) : Option ClaimAssembleResult :=
  match alookup st.pendingSources name with
  | none => none
  | some entry => some (claimUrlLoop F kec name entry st [] entry.urls)

/-! ## Match model -/

/-- The match status wire enum (`perfect | partial | extra-file-input-bug`). -/
inductive Status where
  | perfect
  | partialMatch
  | extraFileInputBug
deriving DecidableEq, Repr

/-- The repository partition a match is stored into. -/
inductive MatchQuality where
  | full
  | partialMatch
deriving DecidableEq, Repr

/-- The `Match` record, restricted to the fields the embedded code reads. -/
structure Match where
  address : Option String
  chainId : String
  runtimeMatch : Option Status
  creationMatch : Option Status
  storageTimestamp : Option Nat
  abiEncodedConstructorArguments : Option String
  creatorTxHash : Option String
  libraryMap : List (String × String)
  immutableReferences : List (String × String)
deriving DecidableEq, Repr

/-- A match with only the essential fields set. -/
def mkMatch (address : Option String) (chainId : String)
    (runtimeMatch creationMatch : Option Status) : Match :=
  ⟨address, chainId, runtimeMatch, creationMatch, none, none, none, [], []⟩

/-- The slice of a `CheckedContract` that `storeMatch` reads: the name, the
serialized metadata (`JSON.stringify(contract.metadata)`), and the source map
`contract.solidity`. -/
structure CheckedContractLite where
  name : String
  metadataJson : String
  solidity : List (String × String)
deriving DecidableEq, Repr

/-- Modelled from the spec: `getMatchStatus` (server `common.ts`, not under
`src/`) derives the reported status from `runtimeMatch || creationMatch`, with
a perfect `creationMatch` upgrading the runtime status (spec sections 3 and
4.6 step 7). -/
def getMatchStatus (m : Match) : Option Status :=
  if m.creationMatch = some .perfect then some .perfect
  else m.runtimeMatch <|> m.creationMatch

/-! ## VerificationService (`VerificationService.ts`) -/

/-- The outcome environment of one `verifyDeployed` call: the creator
transaction discovered by `getCreatorTx`, and the result of the lib-sourcify
`verifyDeployed`.  Modelled from the spec: `getCreatorTx`
(`contract-creation-util`, not under `src/`) tolerates failure and returns
undefined rather than throwing (spec section 4.7 step 3), so it appears as a
plain optional value; the lib verification may resolve or reject. -/
structure VerifyEnv where
  getCreatorTxResult : Option String
  libVerify : Option String → Except Unit Match

/-- Errors surfaced by `VerificationService.verifyDeployed`. -/
inductive VerifyError where
  | contractAlreadyBeingVerified (chainId address : String)
  | libError
deriving DecidableEq, Repr

/-- The single-flight key. -/
def flightKey (chainId address : String) : String :=
  chainId ++ ":" ++ address

/-- `VerificationService.verifyDeployed`: throw `already-verifying` when the
`chainId:address` key is active; otherwise insert the key, resolve the creator
transaction hash (`creatorTxHash || getCreatorTx(...) || undefined`), run the
lib verification, and delete the key on both the return and the throw path.
The second component is the active-verifications map after the call. -/
def verifyDeployedService (env : VerifyEnv) (active : List String)
    (chainId address : String) (creatorTxHash : Option String) :
    Except VerifyError Match × List String :=
  let key := flightKey chainId address
  if active.contains key then
    (.error (.contractAlreadyBeingVerified chainId address), active)
  else
    let active1 := key :: active
    let foundCreatorTxHash := creatorTxHash <|> env.getCreatorTxResult
    match env.libVerify foundCreatorTxHash with
    | .ok m => (.ok m, active1.erase key)
    | .error _ => (.error .libError, active1.erase key)

/-- One completed `verifyDeployed` call in a sequence. -/
structure CallSpec where
  env : VerifyEnv
  chainId : String
  address : String
  creatorTxHash : Option String

/-- The active-verifications map after a sequence of completed calls. -/
def runCalls (calls : List CallSpec) (active : List String) : List String :=
  calls.foldl
    (fun act c => (verifyDeployedService c.env act c.chainId c.address c.creatorTxHash).2)
    active

/-! ## RepositoryV1Service (`RepositoryV1Service.ts`)

Paths are embedded relative to the repository root; `Path.join` over the
slash-free segments the service produces is rendered as interspersing `/`
between the non-empty segments.  The ethers `getAddress` checksummer and the
node `path` functions inside `sanitizePath` live outside the embedded sources
and are passed as explicit function parameters. -/

/-- Intersperse `/` between path segments. -/
def joinNonempty : List String → String
  | [] => ""
  | [s] => s
  | s :: rest => s ++ "/" ++ joinNonempty rest

/-- `Path.join` on the segment lists the service builds: drop empty segments,
intersperse `/`. -/
def joinSegs (segs : List String) : String :=
  joinNonempty (segs.filter (fun s => s ≠ ""))

/-- `${matchQuality}_match`, the partition directory name. -/
def qualityDirName : MatchQuality → String
  | .full => "full_match"
  | .partialMatch => "partial_match"

/-- `contracts/{full|partial}_match/{chainId}/{getAddress(address)}`. -/
def relativeContractDir (getAddr : String → String) (quality : MatchQuality)
    (chainId address : String) : String :=
  joinSegs ["contracts", qualityDirName quality, chainId, getAddr address]

/-- `generateRelativeFilePath`: the contract dir, then `sources` when the file
is a source, then the file name. -/
def relativeFilePath (getAddr : String → String) (quality : MatchQuality)
    (chainId address : String) (isSource : Bool) (fileName : String) : String :=
  joinSegs [relativeContractDir getAddr quality chainId address,
    if isSource then "sources" else "", fileName]

/-- `statusToMatchQuality`: `perfect` is stored as `full`, `partial` as
`partial`, anything else throws `Invalid match status` (`none` here). -/
def statusToMatchQuality : Option Status → Option MatchQuality
  | some .perfect => some .full
  | some .partialMatch => some .partialMatch
  | _ => none

/-- The filesystem effects of the service, in program order.  `save` performs
a write followed by the manifest bump of `updateRepositoryTag`;
`deletePartialIfExists` performs a recursive `rmdirSync`.  No rename effect is
ever emitted by the source, but the constructor is part of the vocabulary so
that its absence is expressible. -/
inductive FsOp where
  | writeFileOp (path content : String)
  | writeManifestOp
  | rmdirRecursiveOp (path : String)
  | renameOp (src dst : String)
deriving DecidableEq, Repr

/-- Whether an effect is a rename. -/
def isRenameOp : FsOp → Bool
  | .renameOp _ _ => true
  | _ => false

/-- `save(path, content)`: write the file, then `updateRepositoryTag`. -/
def saveOps (relPath content : String) : List FsOp :=
  [.writeFileOp relPath content, .writeManifestOp]

/-- JSON rendering of a flat string map (`JSON.stringify` of the
path-translation object). -/
def jsonObjectStr (pairs : List (String × String)) : String :=
  "\x7b" ++ String.intercalate ","
    (pairs.map (fun p => jsonQuote p.1 ++ ":" ++ jsonQuote p.2)) ++ "\x7d"

/-- `manifest.json` content: `JSON.stringify({timestamp})`. -/
def manifestJson (timestamp : Nat) : String :=
  "\x7b\"timestamp\":" ++ toString timestamp ++ "\x7d"

/-- `storeSources`: save every source under its sanitized path, then save
`path-translation.json` when any path changed under sanitization. -/
def storeSourcesOps (sanitize getAddr : String → String) (quality : MatchQuality)
    (chainId address : String) (sources : List (String × String)) : List FsOp :=
  let pathTranslation :=
    (sources.filter (fun pc => sanitize pc.1 ≠ pc.1)).map (fun pc => (pc.1, sanitize pc.1))
  (sources.flatMap (fun pc =>
      saveOps (relativeFilePath getAddr quality chainId address true (sanitize pc.1)) pc.2))
  ++ (if pathTranslation.isEmpty then []
      else saveOps (relativeFilePath getAddr quality chainId address false "path-translation.json")
        (jsonObjectStr pathTranslation))

/-- The repository filesystem: path to content, insertion ordered. -/
abbrev RepoFs : Type := List (String × String)

/-- A path is inside the subtree rooted at `dir`. -/
def underDir (dir p : String) : Bool :=
  p == dir || strIsPrefix (dir ++ "/") p

/-- `deletePartialIfExists`: when the `partial_match` contract directory
exists, remove it with a recursive `rmdirSync` — directly, with no rename
aside. -/
def deletePartialIfExistsOps (getAddr : String → String) (fs : RepoFs)
    (chainId address : String) : List FsOp :=
  if fs.any (fun e => underDir (relativeContractDir getAddr .partialMatch chainId address) e.1) then
    [.rmdirRecursiveOp (relativeContractDir getAddr .partialMatch chainId address)]
  else []

/-- Errors thrown by `storeMatch`. -/
inductive StoreError where
  | invalidMatchStatus (s : Option Status)
  | unknownMatchStatus (s : Option Status)
deriving DecidableEq, Repr

/-- The guard of the write branch of `storeMatch`: a truthy address and a
perfect or partial runtime or creation match. -/
def storeCond (m : Match) : Bool :=
  strTruthy m.address &&
    (m.runtimeMatch == some .perfect || m.runtimeMatch == some .partialMatch ||
     m.creationMatch == some .perfect || m.creationMatch == some .partialMatch)

/-- The write phase of `storeMatch`: the sources, the metadata, and the
optional artifacts, each via `save`, in program order. -/
def storeWriteOps (sanitize getAddr : String → String) (quality : MatchQuality)
    (contract : CheckedContractLite) (m : Match) (addr : String) : List FsOp :=
  storeSourcesOps sanitize getAddr quality m.chainId addr contract.solidity
  ++ saveOps (relativeFilePath getAddr quality m.chainId addr false "metadata.json")
       contract.metadataJson
  ++ (if strTruthy m.abiEncodedConstructorArguments then
        saveOps (relativeFilePath getAddr quality m.chainId addr false "constructor-args.txt")
          (m.abiEncodedConstructorArguments.getD "")
      else [])
  ++ (if strTruthy m.creatorTxHash then
        saveOps (relativeFilePath getAddr quality m.chainId addr false "creator-tx-hash.txt")
          (m.creatorTxHash.getD "")
      else [])
  ++ (if m.libraryMap.isEmpty then []
      else saveOps (relativeFilePath getAddr quality m.chainId addr false "library-map.json")
        (jsonObjectStr m.libraryMap))
  ++ (if m.immutableReferences.isEmpty then []
      else saveOps
        (relativeFilePath getAddr quality m.chainId addr false "immutable-references.json")
        (jsonObjectStr m.immutableReferences))

/-- `RepositoryV1Service.storeMatch`, as the list of filesystem effects it
performs: inside the write branch, first `deletePartialIfExists` when the
match is perfect, then the write phase; a match whose `runtimeMatch` is
`extra-file-input-bug` (and which does not satisfy the write guard) is
returned unchanged with no effect; anything else throws
`Unknown match status`.  A thrown error carries the effects already
performed. -/
def storeMatchOps (sanitize getAddr : String → String) (fs : RepoFs)
    (contract : CheckedContractLite) (m : Match) :
    Except (StoreError × List FsOp) (List FsOp × Option Match) :=
  if storeCond m then
    let addr := m.address.getD ""
    let deleteOps :=
      if m.runtimeMatch = some .perfect ∨ m.creationMatch = some .perfect then
        deletePartialIfExistsOps getAddr fs m.chainId addr
      else []
    match statusToMatchQuality (getMatchStatus m) with
    | none => .error (.invalidMatchStatus (getMatchStatus m), deleteOps)
    | some quality =>
      .ok (deleteOps ++ storeWriteOps sanitize getAddr quality contract m addr, none)
  else if m.runtimeMatch = some .extraFileInputBug then
    .ok ([], some m)
  else
    .error (.unknownMatchStatus m.runtimeMatch, [])

/-- Apply one effect to the repository filesystem; a manifest bump writes
`manifest.json` at the root with the current `Date.now()` reading. -/
def applyOp (now : Nat) (fs : RepoFs) : FsOp → RepoFs
  | .writeFileOp p c => aset fs p c
  | .writeManifestOp => aset fs "manifest.json" (manifestJson now)
  | .rmdirRecursiveOp p => fs.filter (fun e => !underDir p e.1)
  | .renameOp src dst =>
      fs.map (fun e => if underDir src e.1 then (dst ++ (e.1.drop src.length), e.2) else e)

/-- Apply a list of effects, consuming one clock reading per manifest bump. -/
def applyOps (ops : List FsOp) (clocks : List Nat) (fs : RepoFs) : RepoFs :=
  match ops with
  | [] => fs
  | .writeManifestOp :: rest =>
      applyOps rest clocks.tail (applyOp (clocks.headD 0) fs .writeManifestOp)
  | op :: rest => applyOps rest clocks (applyOp 0 fs op)

/-- The successive timestamps written into `manifest.json` while a list of
effects runs. -/
def manifestTimestamps (ops : List FsOp) (clocks : List Nat) : List Nat :=
  clocks.take (ops.count .writeManifestOp)

/-! ### Repository lookup (`checkByChainAndAddress`) and the session
short-circuit -/

/-- Directory birthtimes, the stat oracle of the lookup path. -/
def Birthtimes : Type := List (String × Nat)

/-- `RepositoryV1Service.checkByChainAndAddress`: stat
`contracts/full_match/{chain}/{address}/metadata.json` — and only the full
match — and synthesize a perfect match from its birthtime; an absent file
yields the empty list. -/
def checkByChainAndAddress (getAddr : String → String) (stat : Birthtimes)
    (address chainId : String) : List Match :=
  match alookup stat (relativeFilePath getAddr .full chainId address false "metadata.json") with
  | some t =>
      [{ mkMatch (some address) chainId (some .perfect) none with storageTimestamp := some t }]
  | none => []

/-- The outcome of the pre-verification check of `verifyContractsInSession`
for one staged contract. -/
inductive SessionStep where
  | shortCircuit (status : Option Status) (timestamp : Option Nat)
  | proceedToVerify
deriving DecidableEq, Repr

/-- The head of the `verifyContractsInSession` loop body: when the wrapper has
a truthy address and chain id, consult the match store; a non-empty answer
short-circuits the entry with the stored status and timestamp, otherwise
verification proceeds. -/
def sessionPreCheck (getAddr : String → String) (stat : Birthtimes)
    (address chainId : Option String) : SessionStep :=
  if strTruthy address ∧ strTruthy chainId then
    match checkByChainAndAddress getAddr stat (address.getD "") (chainId.getD "") with
    | found :: _ => .shortCircuit found.runtimeMatch found.storageTimestamp
    | [] => .proceedToVerify
  else .proceedToVerify

/-! ## The stateless verify handler (`verify.stateless.handlers.ts`) -/

/-- The error surfaced by the legacy endpoint catch-all. -/
inductive HandlerError where
  | verifyError
  | extraFileInputBugTerminal
deriving DecidableEq, Repr

/-- The response of the extra-file recovery section of the endpoint. -/
inductive HandlerResponse where
  | sendResult (m : Match)
  | internalError (e : HandlerError)
deriving DecidableEq, Repr

/-- The verification outcomes available to the handler: the first
`verifyDeployed` and, when the recovery path runs, the second one with all
uploaded sources. -/
structure StatelessEnv where
  firstVerify : Except Unit Match
  secondVerify : Except Unit Match

/-- The try block of `legacyVerifyEndpoint` from the first `verifyDeployed`
on: on `extra-file-input-bug`, re-verify with all sources; store and answer
the second match only when its runtime or creation match is `perfect`; throw
the terminal validation error when the second attempt hits
`extra-file-input-bug` again; in every other case fall through to the original
match, passing it to `storeMatch` whenever its runtime or creation status is
non-null, and send it.  Any throw is caught and becomes a 500 response.  The
second component lists the matches handed to `storeMatch`. -/
def legacyVerifyCore (env : StatelessEnv) : HandlerResponse × List Match :=
  match env.firstVerify with
  | .error _ => (.internalError .verifyError, [])
  | .ok m =>
    if m.runtimeMatch = some .extraFileInputBug then
      match env.secondVerify with
      | .error _ => (.internalError .verifyError, [])
      | .ok tempMatch =>
        if tempMatch.runtimeMatch = some .perfect ∨ tempMatch.creationMatch = some .perfect then
          (.sendResult tempMatch, [tempMatch])
        else if tempMatch.runtimeMatch = some .extraFileInputBug then
          (.internalError .extraFileInputBugTerminal, [])
        else if m.runtimeMatch.isSome ∨ m.creationMatch.isSome then
          (.sendResult m, [m])
        else
          (.sendResult m, [])
    else if m.runtimeMatch.isSome ∨ m.creationMatch.isSome then
      (.sendResult m, [m])
    else
      (.sendResult m, [])

/-- Whether an `Except` carries a value. -/
def isOkE {ε α : Type} : Except ε α → Bool
  | .ok _ => true
  | .error _ => false

/-! ## Association list lemmas -/

theorem alookup_cons {α : Type} (a : String × α) (t : List (String × α)) (k : String) :
    alookup (a :: t) k = if a.1 == k then some a.2 else alookup t k := by
  by_cases h : a.1 == k <;> simp [alookup, List.find?_cons, h]

theorem alookup_aerase {α : Type} (m : List (String × α)) (k k' : String) :
    alookup (aerase m k) k' = if k' = k then none else alookup m k' := by
  induction m with
  | nil => simp [alookup, aerase]
  | cons a t ih =>
    by_cases hak : a.1 = k
    · have h1 : aerase (a :: t) k = aerase t k := by simp [aerase, hak]
      rw [h1, ih]
      by_cases hk' : k' = k
      · simp [hk']
      · rw [if_neg hk', if_neg hk', alookup_cons]
        have : (a.1 == k') = false := by
          rw [beq_eq_false_iff_ne, hak]
          exact fun he => hk' he.symm
        simp [this]
    · have h1 : aerase (a :: t) k = a :: aerase t k := by simp [aerase, hak]
      rw [h1, alookup_cons, alookup_cons, ih]
      by_cases hk' : k' = k
      · subst hk'
        have : (a.1 == k') = false := beq_eq_false_iff_ne.mpr hak
        simp [this]
      · simp [hk']

theorem alookup_map_asetFn_ne {α : Type} (m : List (String × α)) (k k' : String) (v : α)
    (h : k' ≠ k) : alookup (m.map (asetFn k v)) k' = alookup m k' := by
  induction m with
  | nil => rfl
  | cons a t ih =>
    rw [List.map_cons, alookup_cons, alookup_cons, ih]
    by_cases ha : a.1 = k
    · have h1 : ((asetFn k v a).1 == k') = false := by
        simp [asetFn, ha, beq_eq_false_iff_ne]
        exact fun he => h he.symm
      have h2 : (a.1 == k') = false := by
        rw [beq_eq_false_iff_ne, ha]
        exact fun he => h he.symm
      simp [h1, h2]
    · have h1 : asetFn k v a = a := by simp [asetFn, ha]
      rw [h1]

theorem alookup_map_asetFn_self {α : Type} (m : List (String × α)) (k : String) (v : α)
    (h : (m.find? (fun p => p.1 == k)).isSome) :
    alookup (m.map (asetFn k v)) k = some v := by
  induction m with
  | nil => simp at h
  | cons a t ih =>
    rw [List.map_cons, alookup_cons]
    by_cases ha : a.1 = k
    · have h1 : asetFn k v a = (k, v) := by simp [asetFn, ha]
      simp [h1]
    · have h1 : asetFn k v a = a := by simp [asetFn, ha]
      have h2 : (a.1 == k) = false := beq_eq_false_iff_ne.mpr ha
      rw [h1, h2]
      simp only [Bool.false_eq_true, if_false]
      apply ih
      rw [List.find?_cons, h2] at h
      exact h

theorem alookup_append_single {α : Type} (m : List (String × α)) (k k' : String) (v : α)
    (h : (m.find? (fun p => p.1 == k)).isSome = false) :
    alookup (m ++ [(k, v)]) k' = if k' = k then some v else alookup m k' := by
  induction m with
  | nil =>
    rw [List.nil_append, alookup_cons]
    by_cases hk' : k' = k
    · simp [hk']
    · have : (k == k') = false := by
        rw [beq_eq_false_iff_ne]
        exact fun he => hk' he.symm
      simp [this, hk', alookup]
  | cons a t ih =>
    rw [List.cons_append, alookup_cons, alookup_cons]
    rw [List.find?_cons] at h
    by_cases ha : (a.1 == k) = true
    · rw [ha] at h; simp at h
    · rw [Bool.not_eq_true] at ha
      rw [ha] at h
      by_cases hk' : k' = k
      · subst hk'
        rw [ih h]
        have := ha
        simp [this]
      · rw [ih h, if_neg hk', if_neg hk']

theorem alookup_aset {α : Type} (m : List (String × α)) (k k' : String) (v : α) :
    alookup (aset m k v) k' = if k' = k then some v else alookup m k' := by
  unfold aset
  by_cases hfind : (m.find? (fun p => p.1 == k)).isSome
  · rw [if_pos hfind]
    by_cases hk' : k' = k
    · subst hk'
      rw [alookup_map_asetFn_self m k' v hfind, if_pos rfl]
    · rw [alookup_map_asetFn_ne m k k' v hk', if_neg hk']
  · rw [if_neg hfind, alookup_append_single m k k' v (Bool.eq_false_iff.mpr hfind)]

theorem mem_aset {α : Type} {m : List (String × α)} {k : String} {v : α}
    {e : String × α} (h : e ∈ aset m k v) : e ∈ m ∨ e = (k, v) := by
  unfold aset at h
  by_cases hfind : (m.find? (fun p => p.1 == k)).isSome
  · rw [if_pos hfind] at h
    rcases List.mem_map.mp h with ⟨a, ha, hfa⟩
    unfold asetFn at hfa
    by_cases hak : (a.1 == k) = true
    · rw [if_pos hak] at hfa
      exact Or.inr hfa.symm
    · rw [Bool.not_eq_true] at hak
      rw [hak] at hfa
      simp only [Bool.false_eq_true, if_false] at hfa
      exact Or.inl (hfa ▸ ha)
  · rw [if_neg hfind] at h
    rcases List.mem_append.mp h with h | h
    · exact Or.inl h
    · exact Or.inr (List.mem_singleton.mp h)

theorem alookup_isSome_iff {α : Type} (m : List (String × α)) (k : String) :
    (alookup m k).isSome ↔ k ∈ m.map Prod.fst := by
  unfold alookup
  rw [Option.isSome_map', List.find?_isSome]
  constructor
  · rintro ⟨x, hx, hpx⟩
    exact List.mem_map.mpr ⟨x, hx, beq_iff_eq.mp hpx⟩
  · intro h
    rcases List.mem_map.mp h with ⟨x, hx, hfx⟩
    exact ⟨x, hx, beq_iff_eq.mpr hfx⟩

/-! ## Claim C2: the single-flight gate always releases its key -/

theorem verifyDeployedService_active (env : VerifyEnv) (active : List String)
    (chainId address : String) (ctx : Option String) :
    (verifyDeployedService env active chainId address ctx).2 = active := by
  unfold verifyDeployedService
  by_cases h : active.contains (flightKey chainId address)
  · rw [if_pos h]
  · rw [if_neg h]
    dsimp only
    split <;> simp [List.erase_cons_head]

/-- C2: every `VerificationService.verifyDeployed` call leaves the
active-verifications map exactly as it found it — the `chainId:address` key
inserted at the start is deleted on both the return and the throw path of the
lib verification, and the early `already-verifying` throw inserts nothing —
so a process that starts with an empty single-flight map has an empty map
again after any sequence of completed calls. -/
theorem c2_single_flight_release (env : VerifyEnv) (active : List String)
    (chainId address : String) (ctx : Option String) (calls : List CallSpec) :
    (verifyDeployedService env active chainId address ctx).2 = active ∧
    runCalls calls [] = [] := by
  refine ⟨verifyDeployedService_active env active chainId address ctx, ?_⟩
  have h : ∀ (cs : List CallSpec) (a : List String), runCalls cs a = a := by
    intro cs
    induction cs with
    | nil => intro a; rfl
    | cons c tl ih =>
      intro a
      unfold runCalls
      rw [List.foldl_cons, verifyDeployedService_active]
      exact ih a
  exact h calls []

/-! ## Claim C6: the 50 MiB session boundary -/

/-- C6: a batch bringing the cumulative session size to exactly 50 MiB is
accepted, and one byte more is rejected with `payload-too-large`, the error
path returning before any file is inserted, so the session files are
untouched. -/
theorem c6_session_size_boundary (pcs : List PathContent)
    (files : List (String × PathContent)) :
    (sessionFilesSize files + (pcs.map (fun pc => pc.content.length)).sum = MAX_SESSION_SIZE →
      isOkE (saveFiles pcs files) = true) ∧
    (MAX_SESSION_SIZE + 1 ≤ sessionFilesSize files + (pcs.map (fun pc => pc.content.length)).sum →
      saveFiles pcs files = .error files) := by
  constructor
  · intro h
    unfold saveFiles
    rw [if_neg (by omega)]
    rfl
  · intro h
    unfold saveFiles
    rw [if_pos (by omega)]

/-- A 50 MiB file and a 50 MiB + 1 byte file. -/
def bigContentA : String := String.mk (List.replicate MAX_SESSION_SIZE 'a')

def bigContentB : String := String.mk (List.replicate (MAX_SESSION_SIZE + 1) 'a')

theorem c6_session_size_boundary_witness :
    isOkE (saveFiles [⟨"a.txt", bigContentA⟩] []) = true ∧
    saveFiles [⟨"b.txt", bigContentB⟩] [] = .error [] := by
  have hmk : ∀ (l : List Char), (String.mk l).length = l.length := fun _ => rfl
  have hlenA : bigContentA.length = MAX_SESSION_SIZE := by
    rw [show bigContentA = String.mk (List.replicate MAX_SESSION_SIZE 'a') from rfl,
      hmk, List.length_replicate]
  have hlenB : bigContentB.length = MAX_SESSION_SIZE + 1 := by
    rw [show bigContentB = String.mk (List.replicate (MAX_SESSION_SIZE + 1) 'a') from rfl,
      hmk, List.length_replicate]
  constructor
  · apply (c6_session_size_boundary [⟨"a.txt", bigContentA⟩] []).1
    have e : (([⟨"a.txt", bigContentA⟩] : List PathContent).map (fun pc => pc.content.length)) =
        [bigContentA.length] := rfl
    rw [e, hlenA]
    rfl
  · apply (c6_session_size_boundary [⟨"b.txt", bigContentB⟩] []).2
    have e : (([⟨"b.txt", bigContentB⟩] : List PathContent).map (fun pc => pc.content.length)) =
        [bigContentB.length] := rfl
    rw [e, hlenB]
    decide

/-! ## Claim C7: session content ids -/

theorem saveFiles_fold_key (Q : String × PathContent → Prop)
    (hnew : ∀ pc : PathContent, Q (generateId pc.content, pc)) :
    ∀ (pcs : List PathContent) (acc : List (String × PathContent) × Nat),
      (∀ e ∈ acc.1, Q e) → ∀ e ∈ (pcs.foldl saveFilesStep acc).1, Q e := by
  intro pcs
  induction pcs with
  | nil => intro acc hacc e he; exact hacc e he
  | cons pc tl ih =>
    intro acc hacc e he
    rw [List.foldl_cons] at he
    refine ih (saveFilesStep acc pc) ?_ e he
    intro e' he'
    unfold saveFilesStep at he'
    by_cases hid : (alookup acc.1 (generateId pc.content)).isSome
    · simp only [hid, if_true] at he'
      exact hacc e' he'
    · simp only [hid, Bool.false_eq_true, if_false] at he'
      rcases List.mem_append.mp he' with h | h
      · exact hacc e' h
      · rw [List.mem_singleton.mp h]
        exact hnew pc

/-- C7 amended: a file added to a session is keyed by the SHA-1 of
`JSON.stringify(content)` — the quoted, escaped JSON string literal of the
content, not the raw content — and a staged contract is keyed by the SHA-1 of
the doubly JSON-stringified raw metadata text
(`generateId(JSON.stringify(metadataRaw))`). -/
theorem c7_amended (pcs : List PathContent) (files newFiles : List (String × PathContent))
    (n : Nat) (h : saveFiles pcs files = .ok (newFiles, n)) :
    (∀ e ∈ newFiles, e ∈ files ∨ e.1 = sha1Hex (jsonQuote e.2.content)) ∧
    (∀ raw, sessionContractId raw = sha1Hex (jsonQuote (jsonQuote raw))) := by
  constructor
  · unfold saveFiles at h
    by_cases hsz : sessionFilesSize files +
        (pcs.map (fun pc => pc.content.length)).sum > MAX_SESSION_SIZE
    · rw [if_pos hsz] at h; cases h
    · rw [if_neg hsz, Except.ok.injEq] at h
      have h2 : (pcs.foldl saveFilesStep (files, 0)).1 = newFiles := congrArg Prod.fst h
      intro e he
      rw [← h2] at he
      exact saveFiles_fold_key
        (fun e' => e' ∈ files ∨ e'.1 = sha1Hex (jsonQuote e'.2.content))
        (fun pc => Or.inr rfl) pcs (files, 0) (fun e' he' => Or.inl he') e he
  · intro raw; rfl

theorem c7_amended_witness :
    (generateId "abc", (⟨"p.sol", "abc"⟩ : PathContent)) ∈ ([] : List (String × PathContent)) ∨
      (generateId "abc" : String) = sha1Hex (jsonQuote "abc") :=
  (c7_amended [⟨"p.sol", "abc"⟩] [] [(generateId "abc", ⟨"p.sol", "abc"⟩)] 1 rfl).1
    (generateId "abc", ⟨"p.sol", "abc"⟩) (List.mem_singleton.mpr rfl)

/-- C7 counterexample: the id of a session file is not the SHA-1 of its
content, and the id of a staged contract is not the SHA-1 of the raw metadata
bytes — `generateId` hashes the JSON-stringified argument, as the concrete
inserted key shows. -/
theorem c7_counterexample :
    generateId "abc" ≠ sha1Hex "abc" ∧
    sessionContractId "md" ≠ sha1Hex "md" ∧
    saveFiles [⟨"a.sol", "abc"⟩] [] = .ok ([(generateId "abc", ⟨"a.sol", "abc"⟩)], 1) :=
  ⟨by decide, by decide, rfl⟩

/-! ## Claim C10: the branch structure of `storeMatch` -/

/-- C10 amended: `storeMatch` writes only when the address is set and the
runtime or creation match is perfect or partial; with the write guard false it
returns a runtime `extra-file-input-bug` match unchanged without writing and
throws `Unknown match status` on anything else, also without writing; but a
match whose runtime status is `extra-file-input-bug` while its creation
status is perfect or partial takes the write branch instead, where a
non-storable derived status throws `Invalid match status` (with no effect
performed, the partial-delete being guarded by a perfect status). -/
theorem c10_amended (sanitize getAddr : String → String) (fs : RepoFs)
    (contract : CheckedContractLite) (m : Match) :
    (storeCond m = false → m.runtimeMatch = some .extraFileInputBug →
      storeMatchOps sanitize getAddr fs contract m = .ok ([], some m)) ∧
    (storeCond m = false → m.runtimeMatch ≠ some .extraFileInputBug →
      storeMatchOps sanitize getAddr fs contract m =
        .error (.unknownMatchStatus m.runtimeMatch, [])) ∧
    (∀ ops r, storeMatchOps sanitize getAddr fs contract m = .ok (ops, r) → ops ≠ [] →
      storeCond m = true) ∧
    (storeCond m = true → statusToMatchQuality (getMatchStatus m) = none →
      storeMatchOps sanitize getAddr fs contract m =
        .error (.invalidMatchStatus (getMatchStatus m), [])) := by
  refine ⟨?_, ?_, ?_, ?_⟩
  · intro hc he
    unfold storeMatchOps
    rw [hc, if_neg Bool.false_ne_true, if_pos he]
  · intro hc he
    unfold storeMatchOps
    rw [hc, if_neg Bool.false_ne_true, if_neg he]
  · intro ops r h hne
    by_cases hc : storeCond m
    · exact hc
    · exfalso
      unfold storeMatchOps at h
      simp only [Bool.eq_false_iff.mpr hc, Bool.false_eq_true, if_false] at h
      by_cases he : m.runtimeMatch = some .extraFileInputBug
      · rw [if_pos he, Except.ok.injEq] at h
        exact hne (congrArg Prod.fst h).symm
      · rw [if_neg he] at h
        cases h
  · intro hc hq
    have hnp : ¬(m.runtimeMatch = some .perfect ∨ m.creationMatch = some .perfect) := by
      intro hp
      unfold getMatchStatus at hq
      rcases hp with hr | hcr
      · by_cases hcp : m.creationMatch = some .perfect
        · rw [if_pos hcp] at hq
          simp [statusToMatchQuality] at hq
        · rw [if_neg hcp, hr] at hq
          simp [statusToMatchQuality] at hq
      · rw [if_pos hcr] at hq
        simp [statusToMatchQuality] at hq
    unfold storeMatchOps
    simp only [hc, if_true]
    rw [if_neg hnp]
    unfold getMatchStatus at hq ⊢
    rw [hq]

def c10Match : Match := mkMatch (some "0xA") "1" (some .extraFileInputBug) (some .partialMatch)

/-- C10 counterexample: at a match with a set address, runtime
`extra-file-input-bug` and creation `partial`, `storeMatch` does not return
the match unchanged: it enters the write branch and throws
`Invalid match status`. -/
theorem c10_counterexample :
    storeMatchOps (fun s => s) (fun s => s) [] ⟨"C", "MD", []⟩ c10Match =
      .error (.invalidMatchStatus (some .extraFileInputBug), []) ∧
    ∀ (r : List FsOp × Option Match),
      storeMatchOps (fun s => s) (fun s => s) [] ⟨"C", "MD", []⟩ c10Match ≠ .ok r := by
  have h : storeMatchOps (fun s => s) (fun s => s) [] ⟨"C", "MD", []⟩ c10Match =
      .error (.invalidMatchStatus (some .extraFileInputBug), []) := rfl
  exact ⟨h, fun r hr => by rw [h] at hr; cases hr⟩

def c10EfibMatch : Match := mkMatch none "1" (some .extraFileInputBug) none

theorem c10_amended_witness :
    storeMatchOps (fun s => s) (fun s => s) [] ⟨"C", "MD", []⟩ c10EfibMatch =
      .ok ([], some c10EfibMatch) :=
  (c10_amended (fun s => s) (fun s => s) [] ⟨"C", "MD", []⟩ c10EfibMatch).1 rfl rfl

/-! ## Claim C5: the session short-circuit consults only `full_match` -/

/-- C5 amended: for a staged contract with truthy address and chain id, the
session verification short-circuits exactly when the store has a `full_match`
record — `checkByChainAndAddress` stats only
`contracts/full_match/{chain}/{address}/metadata.json` — reporting status
`perfect` and the directory birthtime; a partial-only record does not
short-circuit. -/
theorem c5_amended (getAddr : String → String) (stat : Birthtimes) (address chainId : String)
    (ha : address ≠ "") (hc : chainId ≠ "") :
    (∀ t, alookup stat (relativeFilePath getAddr .full chainId address false "metadata.json") =
        some t →
      sessionPreCheck getAddr stat (some address) (some chainId) =
        .shortCircuit (some .perfect) (some t)) ∧
    (alookup stat (relativeFilePath getAddr .full chainId address false "metadata.json") = none →
      sessionPreCheck getAddr stat (some address) (some chainId) = .proceedToVerify) := by
  have hcond : strTruthy (some address) = true ∧ strTruthy (some chainId) = true := by
    simp [strTruthy, ha, hc]
  constructor
  · intro t ht
    unfold sessionPreCheck
    rw [if_pos hcond]
    unfold checkByChainAndAddress
    simp only [Option.getD_some]
    rw [ht]
    rfl
  · intro ht
    unfold sessionPreCheck
    rw [if_pos hcond]
    unfold checkByChainAndAddress
    simp only [Option.getD_some]
    rw [ht]

theorem c5_amended_witness :
    sessionPreCheck (fun s => s) [("contracts/full_match/1/0xA/metadata.json", 7)]
      (some "0xA") (some "1") = .shortCircuit (some .perfect) (some 7) :=
  (c5_amended (fun s => s) [("contracts/full_match/1/0xA/metadata.json", 7)] "0xA" "1"
    (by decide) (by decide)).1 7 (by decide)

/-- C5 counterexample: with only a partial-match record on disk
(`contracts/partial_match/1/0xA/metadata.json`), the session check proceeds to
re-verification instead of short-circuiting, though the claim promises a
short-circuit for stored records of either quality. -/
theorem c5_counterexample :
    sessionPreCheck (fun s => s) [("contracts/partial_match/1/0xA/metadata.json", 42)]
      (some "0xA") (some "1") = .proceedToVerify ∧
    ∀ (s : Option Status) (t : Option Nat),
      SessionStep.proceedToVerify ≠ SessionStep.shortCircuit s t :=
  ⟨rfl, fun s t h => by cases h⟩

/-! ## Claim C3: the extra-file recovery of the stateless handler -/

def c3First : Match := mkMatch (some "0xA") "1" (some .extraFileInputBug) none

def c3Second : Match := mkMatch (some "0xA") "1" (some .partialMatch) none

def c3Perfect : Match := mkMatch (some "0xA") "1" (some .perfect) none

/-- C3 counterexample: when the re-verification with all sources returns a
partial match, the stateless handler does not answer with that second match —
it falls through and sends the original `extra-file-input-bug` match. -/
theorem c3_counterexample :
    legacyVerifyCore ⟨.ok c3First, .ok c3Second⟩ = (.sendResult c3First, [c3First]) ∧
    c3First ≠ c3Second :=
  ⟨rfl, by decide⟩

/-- C3 amended: in the stateless handler, only a second match with a perfect
runtime or creation status becomes the stored, final answer; a second
`extra-file-input-bug` surfaces the terminal validation error (as a 500
response); and a merely partial second match is discarded — the original
`extra-file-input-bug` match is handed to `storeMatch` and sent instead. -/
theorem c3_amended (m t : Match) (hm : m.runtimeMatch = some .extraFileInputBug) :
    ((t.runtimeMatch = some .perfect ∨ t.creationMatch = some .perfect) →
      legacyVerifyCore ⟨.ok m, .ok t⟩ = (.sendResult t, [t])) ∧
    (t.runtimeMatch = some .extraFileInputBug → t.creationMatch ≠ some .perfect →
      legacyVerifyCore ⟨.ok m, .ok t⟩ = (.internalError .extraFileInputBugTerminal, [])) ∧
    (t.runtimeMatch ≠ some .perfect → t.creationMatch ≠ some .perfect →
      t.runtimeMatch ≠ some .extraFileInputBug →
      legacyVerifyCore ⟨.ok m, .ok t⟩ = (.sendResult m, [m])) := by
  refine ⟨?_, ?_, ?_⟩
  · intro hp
    unfold legacyVerifyCore
    simp [hm, hp]
  · intro he hcp
    have hrp : t.runtimeMatch ≠ some .perfect := by rw [he]; simp
    unfold legacyVerifyCore
    simp [hm, he, hcp, hrp]
  · intro h1 h2 h3
    unfold legacyVerifyCore
    simp [hm, h1, h2, h3]

theorem c3_amended_witness :
    legacyVerifyCore ⟨.ok c3First, .ok c3Perfect⟩ = (.sendResult c3Perfect, [c3Perfect]) :=
  (c3_amended c3First c3Perfect rfl).1 (Or.inl rfl)

/-! ## Claim C1: the url iteration of `assemble` -/

def c1Fetchers : Fetchers := fun o =>
  match o with
  | .ipfs => some (fun _ => .ok "body")
  | _ => none

def c1Kec : String → String := fun s => "K" ++ s

def c1Entry : SourceEntry := ⟨"KNOPE", ["dweb:/ipfs/Qm1", "dweb:/ipfs/Qm2"], none⟩

def c1St : PendingState := ⟨[("a.sol", c1Entry)], []⟩

/-- C1 counterexample: when the first url fetches a body whose keccak does not
match the declared one, `assemble` throws the keccak assertion — after having
set the content on the pending entry — instead of recording `invalid[path]`
and continuing; the claimed behaviour finishes the loop with `invalid` and
`missing` recorded and the entry still pending. -/
theorem c1_counterexample :
    processSource c1Fetchers c1Kec c1St "a.sol" =
      .error (.keccakMismatch "a.sol",
        ⟨[("a.sol", ⟨"KNOPE", ["dweb:/ipfs/Qm1", "dweb:/ipfs/Qm2"], some "body"⟩)], []⟩) ∧
    assembleSourceClaim c1Fetchers c1Kec c1St "a.sol" =
      some ⟨c1St, ["a.sol"], ["a.sol"]⟩ :=
  ⟨rfl, rfl⟩

theorem movePendingToFetched_set_content (kec : String → String) (st : PendingState)
    (name body : String) (entry : SourceEntry)
    (hlook : alookup st.pendingSources name = some entry) (hbody : body ≠ "") :
    movePendingToFetchedSources kec (setContentIfPending st name body) name =
      if kec body = entry.keccak256 then
        .ok ⟨aerase (aset st.pendingSources name { entry with content := some body }) name,
             aset st.fetchedSources name { entry with content := some body }⟩
      else .error (.keccakMismatch name) := by
  unfold setContentIfPending
  rw [hlook]
  dsimp only
  unfold movePendingToFetchedSources
  rw [show alookup (aset st.pendingSources name { entry with content := some body }) name =
      some { entry with content := some body } by rw [alookup_aset, if_pos rfl]]
  dsimp only
  have ht : strTruthy (some body) = true := by
    simp [strTruthy, hbody]
  rw [if_pos ht]

/-- C1 amended: for a content-less source, `assemble` iterates the urls in
order; a url that is unparseable or whose origin has no fetcher is skipped; a
rejected fetch makes assembly throw; on a successful fetch the body is stored
into the entry and the keccak assertion runs — a mismatch throws (there is no
`invalid` map to record into), a match moves the entry to `fetchedSources` but
iteration continues, so a later url that also fetches successfully throws
`Source not found`; and a loop ending without a successful fetch simply
returns, leaving the entry in `pendingSources` with no `missing` recording. -/
theorem c1_amended (F : Fetchers) (kec : String → String) (name url : String)
    (st : PendingState) (rest : List String) :
    (fileHashFromUrl url = none →
      processUrls F kec name st (url :: rest) = processUrls F kec name st rest) ∧
    (∀ fh, fileHashFromUrl url = some fh → F fh.origin = none →
      processUrls F kec name st (url :: rest) = processUrls F kec name st rest) ∧
    (∀ fh fetcher, fileHashFromUrl url = some fh → F fh.origin = some fetcher →
      fetcher fh = .error () →
      processUrls F kec name st (url :: rest) = .error (.fetchFailed name url, st)) ∧
    (∀ fh fetcher body entry, fileHashFromUrl url = some fh → F fh.origin = some fetcher →
      fetcher fh = .ok body → alookup st.pendingSources name = some entry → body ≠ "" →
      (kec body ≠ entry.keccak256 →
        processUrls F kec name st (url :: rest) =
          .error (.keccakMismatch name, setContentIfPending st name body)) ∧
      (kec body = entry.keccak256 →
        processUrls F kec name st (url :: rest) =
          processUrls F kec name
            ⟨aerase (aset st.pendingSources name { entry with content := some body }) name,
             aset st.fetchedSources name { entry with content := some body }⟩ rest)) ∧
    (∀ fh fetcher body, fileHashFromUrl url = some fh → F fh.origin = some fetcher →
      fetcher fh = .ok body → alookup st.pendingSources name = none →
      processUrls F kec name st (url :: rest) = .error (.sourceNotFound name, st)) ∧
    (processUrls F kec name st [] = .ok st) := by
  refine ⟨?_, ?_, ?_, ?_, ?_, rfl⟩
  · intro h
    simp only [processUrls]
    rw [h]
  · intro fh hfh hF
    simp only [processUrls]
    rw [hfh]
    dsimp only
    rw [hF]
  · intro fh fetcher hfh hF hfe
    simp only [processUrls]
    rw [hfh]
    dsimp only
    rw [hF]
    dsimp only
    rw [hfe]
  · intro fh fetcher body entry hfh hF hfb hlook hbody
    constructor
    · intro hmis
      simp only [processUrls]
      rw [hfh]
      dsimp only
      rw [hF]
      dsimp only
      rw [hfb]
      dsimp only
      rw [movePendingToFetched_set_content kec st name body entry hlook hbody, if_neg hmis]
    · intro hok
      simp only [processUrls]
      rw [hfh]
      dsimp only
      rw [hF]
      dsimp only
      rw [hfb]
      dsimp only
      rw [movePendingToFetched_set_content kec st name body entry hlook hbody, if_pos hok]
  · intro fh fetcher body hfh hF hfb hlook
    simp only [processUrls]
    rw [hfh]
    dsimp only
    rw [hF]
    dsimp only
    rw [hfb]
    dsimp only
    have h1 : setContentIfPending st name body = st := by
      unfold setContentIfPending
      rw [hlook]
    have h2 : movePendingToFetchedSources kec st name = .error (.sourceNotFound name) := by
      unfold movePendingToFetchedSources
      rw [hlook]
    rw [h1, h2]

theorem c1_amended_witness :
    processUrls c1Fetchers c1Kec "a.sol" c1St ["x://u"] = .ok c1St ∧
    processUrls c1Fetchers c1Kec "a.sol" c1St ["dweb:/ipfs/Qm1"] =
      .error (.keccakMismatch "a.sol", setContentIfPending c1St "a.sol" "body") := by
  constructor
  · have h := (c1_amended c1Fetchers c1Kec "a.sol" "x://u" c1St []).1 (by decide)
    rw [h]
    exact (c1_amended c1Fetchers c1Kec "a.sol" "x://u" c1St []).2.2.2.2.2
  · exact ((c1_amended c1Fetchers c1Kec "a.sol" "dweb:/ipfs/Qm1" c1St []).2.2.2.1
      ⟨.ipfs, "Qm1"⟩ (fun _ => .ok "body") "body" c1Entry rfl rfl rfl rfl
      (by decide)).1 (by decide)

/-! ## Claim C9: the pending/fetched partition invariant -/

/-- Every declared source path lives in exactly one of the two source maps. -/
def partitionInv (paths : List String) (st : PendingState) : Prop :=
  ∀ p ∈ paths,
    ((alookup st.pendingSources p).isSome = true ∧
     (alookup st.fetchedSources p).isSome = false) ∨
    ((alookup st.pendingSources p).isSome = false ∧
     (alookup st.fetchedSources p).isSome = true)

/-- The contract state an assembly step leaves behind, also on the throw
path. -/
def resultState : Except (AssembleError × PendingState) PendingState → PendingState
  | .ok st => st
  | .error (_, st) => st

instance (paths : List String) (st : PendingState) : Decidable (partitionInv paths st) := by
  unfold partitionInv
  infer_instance

theorem move_state (kec : String → String) (st st' : PendingState) (name : String)
    (h : movePendingToFetchedSources kec st name = .ok st') :
    ∃ source, alookup st.pendingSources name = some source ∧
      st' = ⟨aerase st.pendingSources name, aset st.fetchedSources name source⟩ := by
  unfold movePendingToFetchedSources at h
  cases hl : alookup st.pendingSources name with
  | none => rw [hl] at h; cases h
  | some source =>
    rw [hl] at h
    dsimp only at h
    by_cases ht : strTruthy source.content
    · rw [if_pos ht] at h
      cases hc : source.content with
      | none => rw [hc] at h; cases h
      | some c =>
        rw [hc] at h
        dsimp only at h
        by_cases hk : kec c = source.keccak256
        · rw [if_pos hk] at h
          injection h with h2
          exact ⟨source, rfl, h2.symm⟩
        · rw [if_neg hk] at h; cases h
    · rw [if_neg ht] at h; cases h

theorem move_inv (paths : List String) (kec : String → String) (st st' : PendingState)
    (name : String) (hinv : partitionInv paths st)
    (h : movePendingToFetchedSources kec st name = .ok st') : partitionInv paths st' := by
  obtain ⟨source, hl, rfl⟩ := move_state kec st st' name h
  intro p hp
  by_cases hpn : p = name
  · subst hpn
    right
    constructor
    · rw [alookup_aerase, if_pos rfl]
      rfl
    · rw [alookup_aset, if_pos rfl]
      rfl
  · rcases hinv p hp with ⟨h1, h2⟩ | ⟨h1, h2⟩
    · left
      constructor
      · rw [alookup_aerase, if_neg hpn]; exact h1
      · rw [alookup_aset, if_neg hpn]; exact h2
    · right
      constructor
      · rw [alookup_aerase, if_neg hpn]; exact h1
      · rw [alookup_aset, if_neg hpn]; exact h2

theorem setContent_inv (paths : List String) (st : PendingState) (name body : String)
    (hinv : partitionInv paths st) :
    partitionInv paths (setContentIfPending st name body) := by
  unfold setContentIfPending
  cases hl : alookup st.pendingSources name with
  | none => exact hinv
  | some source =>
    intro p hp
    rcases hinv p hp with ⟨h1, h2⟩ | ⟨h1, h2⟩
    · left
      refine ⟨?_, h2⟩
      rw [alookup_aset]
      by_cases hpn : p = name
      · rw [if_pos hpn]; rfl
      · rw [if_neg hpn]; exact h1
    · right
      refine ⟨?_, h2⟩
      rw [alookup_aset]
      by_cases hpn : p = name
      · subst hpn
        rw [hl] at h1
        cases h1
      · rw [if_neg hpn]; exact h1

theorem processUrls_inv (F : Fetchers) (kec : String → String) (paths : List String)
    (name : String) :
    ∀ (urls : List String) (st : PendingState), partitionInv paths st →
      partitionInv paths (resultState (processUrls F kec name st urls)) := by
  intro urls
  induction urls with
  | nil => intro st h; exact h
  | cons url rest ih =>
    intro st h
    simp only [processUrls]
    cases hfh : fileHashFromUrl url with
    | none => exact ih st h
    | some fh =>
      dsimp only
      cases hF : F fh.origin with
      | none => exact ih st h
      | some fetcher =>
        dsimp only
        cases hfb : fetcher fh with
        | error e => exact h
        | ok body =>
          dsimp only
          have h2 := setContent_inv paths st name body h
          cases hm : movePendingToFetchedSources kec (setContentIfPending st name body) name with
          | error e => exact h2
          | ok st'' =>
            exact ih st'' (move_inv paths kec (setContentIfPending st name body) st'' name h2 hm)

theorem processSource_inv (F : Fetchers) (kec : String → String) (paths : List String)
    (st : PendingState) (name : String) (hinv : partitionInv paths st) :
    partitionInv paths (resultState (processSource F kec st name)) := by
  unfold processSource
  cases hl : alookup st.pendingSources name with
  | none => exact hinv
  | some source =>
    dsimp only
    by_cases ht : strTruthy source.content
    · rw [if_pos ht]
      cases hm : movePendingToFetchedSources kec st name with
      | error e => exact hinv
      | ok st' => exact move_inv paths kec st st' name hinv hm
    · rw [if_neg ht]
      exact processUrls_inv F kec paths name source.urls st hinv

/-- C9 amended: every source path of a pending contract lives in exactly one
of `pendingSources` and `fetchedSources` — the invariant holds for the
initial state built from the metadata source map and is preserved by
`movePendingToFetchedSources` and by the whole per-source assembly step, also
on its throw paths — and a move succeeds exactly when the entry is pending
with a non-empty content whose keccak256 equals the declared field (the code
treats an empty content string as unset), in which case the entry leaves
`pendingSources` and appears in `fetchedSources`. -/
theorem c9_amended (kec : String → String) (F : Fetchers) (paths : List String) :
    (∀ sources : List (String × SourceEntry),
      partitionInv (sources.map Prod.fst) ⟨sources, []⟩) ∧
    (∀ st st' name, partitionInv paths st →
      movePendingToFetchedSources kec st name = .ok st' →
      partitionInv paths st' ∧ alookup st'.pendingSources name = none ∧
        (alookup st'.fetchedSources name).isSome = true) ∧
    (∀ st name, isOkE (movePendingToFetchedSources kec st name) = true ↔
      ∃ e c, alookup st.pendingSources name = some e ∧ e.content = some c ∧ c ≠ "" ∧
        kec c = e.keccak256) ∧
    (∀ st name, partitionInv paths st →
      partitionInv paths (resultState (processSource F kec st name))) := by
  refine ⟨?_, ?_, ?_, ?_⟩
  · intro sources p hp
    left
    constructor
    · exact (alookup_isSome_iff sources p).mpr hp
    · rfl
  · intro st st' name hinv hmv
    refine ⟨move_inv paths kec st st' name hinv hmv, ?_, ?_⟩
    · obtain ⟨source, hl, rfl⟩ := move_state kec st st' name hmv
      rw [alookup_aerase, if_pos rfl]
    · obtain ⟨source, hl, rfl⟩ := move_state kec st st' name hmv
      rw [alookup_aset, if_pos rfl]
      rfl
  · intro st name
    constructor
    · intro h
      unfold movePendingToFetchedSources at h
      cases hl : alookup st.pendingSources name with
      | none => rw [hl] at h; cases h
      | some source =>
        rw [hl] at h
        dsimp only at h
        by_cases ht : strTruthy source.content
        · rw [if_pos ht] at h
          cases hc : source.content with
          | none => rw [hc] at h; simp [isOkE] at h
          | some c =>
            rw [hc] at h
            dsimp only at h
            by_cases hk : kec c = source.keccak256
            · refine ⟨source, c, rfl, hc, ?_, hk⟩
              rw [hc] at ht
              simpa [strTruthy] using ht
            · rw [if_neg hk] at h; simp [isOkE] at h
        · rw [if_neg ht] at h; simp [isOkE] at h
    · rintro ⟨e, c, hl, hc, hne, hk⟩
      unfold movePendingToFetchedSources
      rw [hl]
      dsimp only
      have ht : strTruthy e.content = true := by
        rw [hc]; simp [strTruthy, hne]
      rw [if_pos ht, hc]
      dsimp only
      rw [if_pos hk]
      rfl
  · intro st name hinv
    exact processSource_inv F kec paths st name hinv

def c9GoodSt : PendingState := ⟨[("a.sol", ⟨"Kx", [], some "x"⟩)], []⟩

theorem c9_amended_witness :
    isOkE (movePendingToFetchedSources c1Kec c9GoodSt "a.sol") = true ∧
    partitionInv ["a.sol"] (resultState (processSource c1Fetchers c1Kec c9GoodSt "a.sol")) := by
  constructor
  · exact ((c9_amended c1Kec c1Fetchers ["a.sol"]).2.2.1 c9GoodSt "a.sol").mpr
      ⟨⟨"Kx", [], some "x"⟩, "x", rfl, rfl, by decide, rfl⟩
  · exact (c9_amended c1Kec c1Fetchers ["a.sol"]).2.2.2 c9GoodSt "a.sol" (by decide)

def c9EmptySt : PendingState := ⟨[("a.sol", ⟨"K", [], some ""⟩)], []⟩

/-- C9 counterexample: an entry whose content is present but empty and whose
declared keccak equals the keccak of that empty content is not moved — the
move throws `Source has no content` — though the claim says an entry moves
whenever its content is set and its keccak validates. -/
theorem c9_counterexample :
    movePendingToFetchedSources (fun _ => "K") c9EmptySt "a.sol" =
      .error (.sourceHasNoContent "a.sol") ∧
    (fun _ => "K") "" = (⟨"K", [], some ""⟩ : SourceEntry).keccak256 ∧
    (⟨"K", [], some ""⟩ : SourceEntry).content = some "" :=
  ⟨rfl, rfl, rfl⟩

/-! ## Claim C8: the manifest tag -/

/-- The effects of a sequence of `save` calls. -/
def saveSeqOps (saves : List (String × String)) : List FsOp :=
  saves.flatMap (fun pc => saveOps pc.1 pc.2)

theorem count_saveOps (p c : String) :
    (saveOps p c).count FsOp.writeManifestOp = 1 := by
  simp [saveOps, List.count_cons]

theorem count_saveSeqOps (saves : List (String × String)) :
    (saveSeqOps saves).count FsOp.writeManifestOp = saves.length := by
  induction saves with
  | nil => rfl
  | cons s tl ih =>
    show ((saveOps s.1 s.2) ++ saveSeqOps tl).count FsOp.writeManifestOp = tl.length + 1
    rw [List.count_append, ih, count_saveOps]
    omega

/-- C8: every `save` bumps the manifest — applying a `save` writes
`manifest.json` at the repository root with the current clock reading, a
sequence of `n` saves writes the manifest `n` times, the timestamps written
are exactly the successive `Date.now()` readings, so non-decreasing readings
give a non-decreasing manifest history — and every `storeMatch` that reaches
its write branch performs at least one manifest bump. -/
theorem c8_manifest_monotone (saves : List (String × String)) (clocks : List Nat)
    (sanitize getAddr : String → String) (fs : RepoFs) (contract : CheckedContractLite)
    (m : Match) :
    ((saveSeqOps saves).count FsOp.writeManifestOp = saves.length) ∧
    (manifestTimestamps (saveSeqOps saves) clocks = clocks.take saves.length) ∧
    (List.Sorted (· ≤ ·) clocks →
      List.Sorted (· ≤ ·) (manifestTimestamps (saveSeqOps saves) clocks)) ∧
    (∀ ops, storeMatchOps sanitize getAddr fs contract m = .ok (ops, none) →
      0 < ops.count FsOp.writeManifestOp) ∧
    (∀ p c t ts, applyOps (saveOps p c) (t :: ts) fs =
        aset (aset fs p c) "manifest.json" (manifestJson t) ∧
      alookup (applyOps (saveOps p c) (t :: ts) fs) "manifest.json" =
        some (manifestJson t)) := by
  refine ⟨count_saveSeqOps saves, ?_, ?_, ?_, ?_⟩
  · unfold manifestTimestamps
    rw [count_saveSeqOps]
  · intro hs
    unfold manifestTimestamps
    exact List.Pairwise.sublist (List.take_sublist _ _) hs
  · intro ops h
    unfold storeMatchOps at h
    by_cases hc : storeCond m
    · simp only [hc, if_true] at h
      cases hq : statusToMatchQuality (getMatchStatus m) with
      | none => rw [hq] at h; cases h
      | some quality =>
        rw [hq] at h
        dsimp only at h
        injection h with h2
        have h3 : ops = (if m.runtimeMatch = some .perfect ∨ m.creationMatch = some .perfect then
            deletePartialIfExistsOps getAddr fs m.chainId (m.address.getD "")
          else []) ++ storeWriteOps sanitize getAddr quality contract m (m.address.getD "") :=
          (congrArg Prod.fst h2).symm
        rw [h3, List.count_append]
        unfold storeWriteOps
        rw [List.count_append, List.count_append, List.count_append, List.count_append,
          List.count_append, count_saveOps]
        omega
    · simp only [hc, Bool.false_eq_true, if_false] at h
      by_cases he : m.runtimeMatch = some .extraFileInputBug
      · rw [if_pos he] at h
        injection h with h2
        cases congrArg Prod.snd h2
      · rw [if_neg he] at h
        cases h
  · intro p c t ts
    refine ⟨rfl, ?_⟩
    have h : applyOps (saveOps p c) (t :: ts) fs =
        aset (aset fs p c) "manifest.json" (manifestJson t) := rfl
    rw [h, alookup_aset, if_pos rfl]

theorem c8_manifest_monotone_witness :
    manifestTimestamps (saveSeqOps [("a", "x"), ("b", "y")]) [1, 2, 3] = [1, 2] ∧
    List.Sorted (· ≤ ·) (manifestTimestamps (saveSeqOps [("a", "x"), ("b", "y")]) [1, 2, 3]) ∧
    alookup (applyOps (saveOps "a" "x") [5] []) "manifest.json" = some (manifestJson 5) := by
  have h := c8_manifest_monotone [("a", "x"), ("b", "y")] [1, 2, 3]
    (fun s => s) (fun s => s) [] ⟨"C", "MD", []⟩ (mkMatch none "1" none none)
  refine ⟨?_, h.2.2.1 (by decide), ?_⟩
  · rw [h.2.1]
    rfl
  · exact (c8_manifest_monotone [("a", "x")] [5] (fun s => s) (fun s => s) []
      ⟨"C", "MD", []⟩ (mkMatch none "1" none none)).2.2.2.2 "a" "x" 5 [] |>.2

/-! ## Claim C4: deleting the partial match on promotion -/

theorem joinNonempty_cons (a : String) (l : List String) :
    ∃ t, joinNonempty (a :: l) = a ++ t := by
  cases l with
  | nil =>
    refine ⟨"", ?_⟩
    rw [String.append_empty]
    rfl
  | cons b bs =>
    refine ⟨"/" ++ joinNonempty (b :: bs), ?_⟩
    show a ++ "/" ++ joinNonempty (b :: bs) = a ++ ("/" ++ joinNonempty (b :: bs))
    rw [String.append_assoc]

theorem joinNonempty_two_head (a b : String) (l : List String) :
    ∃ t, joinNonempty (a :: b :: l) = (a ++ "/" ++ b) ++ t := by
  obtain ⟨t', ht'⟩ := joinNonempty_cons b l
  refine ⟨t', ?_⟩
  show a ++ "/" ++ joinNonempty (b :: l) = a ++ "/" ++ b ++ t'
  rw [ht', String.append_assoc (a ++ "/") b t']

theorem joinSegs_cons_of_ne (a : String) (ha : a ≠ "") (l : List String) :
    ∃ t, joinSegs (a :: l) = a ++ t := by
  unfold joinSegs
  rw [List.filter_cons, if_pos (decide_eq_true ha)]
  exact joinNonempty_cons a _

theorem qualityDirName_ne_empty (q : MatchQuality) : qualityDirName q ≠ "" := by
  cases q <;> simp [qualityDirName]

theorem relativeContractDir_head (getAddr : String → String) (q : MatchQuality)
    (c a : String) :
    ∃ t, relativeContractDir getAddr q c a = ("contracts/" ++ qualityDirName q) ++ t := by
  unfold relativeContractDir joinSegs
  rw [List.filter_cons, if_pos (decide_eq_true (by decide : ("contracts" : String) ≠ ""))]
  rw [List.filter_cons, if_pos (decide_eq_true (qualityDirName_ne_empty q))]
  obtain ⟨t, ht⟩ := joinNonempty_two_head "contracts" (qualityDirName q)
    (List.filter (fun s => s ≠ "") [c, getAddr a])
  refine ⟨t, ?_⟩
  rw [ht]
  rw [show ("contracts" ++ "/" : String) = "contracts/" from rfl]

theorem head_append_ne_empty (h t : String) (hh : h ≠ "") : h ++ t ≠ "" := by
  intro he
  have h1 := congrArg String.length he
  rw [String.length_append] at h1
  have h2 : h.length ≠ 0 := by
    intro h3
    apply hh
    cases h with
    | mk data =>
      cases data with
      | nil => rfl
      | cons x xs => cases h3
  have h4 : ("" : String).length = 0 := rfl
  omega

theorem relativeFilePath_head (getAddr : String → String) (q : MatchQuality)
    (c a : String) (b : Bool) (f : String) :
    ∃ t, relativeFilePath getAddr q c a b f = ("contracts/" ++ qualityDirName q) ++ t := by
  unfold relativeFilePath
  obtain ⟨t0, ht0⟩ := relativeContractDir_head getAddr q c a
  rw [ht0]
  have hne : ("contracts/" ++ qualityDirName q) ++ t0 ≠ "" :=
    head_append_ne_empty _ _ (head_append_ne_empty "contracts/" _ (by decide))
  obtain ⟨t1, ht1⟩ := joinSegs_cons_of_ne _ hne [if b then "sources" else "", f]
  rw [ht1]
  exact ⟨t0 ++ t1, by rw [String.append_assoc]⟩

theorem getD_of_prefix {l₁ l₂ : List Char} {i : Nat} (h : l₁ <+: l₂) (hi : i < l₁.length) :
    l₂.getD i ' ' = l₁.getD i ' ' := by
  obtain ⟨t, rfl⟩ := h
  exact List.getD_append _ _ _ _ hi

theorem underDir_head_ne (h1 h2 t1 t2 : String) (i : Nat)
    (hi1 : i < h1.data.length) (hi2 : i < h2.data.length)
    (hne : h1.data.getD i ' ' ≠ h2.data.getD i ' ') :
    underDir (h1 ++ t1) (h2 ++ t2) = false := by
  unfold underDir strIsPrefix
  apply Bool.or_eq_false_iff.mpr
  constructor
  · rw [beq_eq_false_iff_ne]
    intro he
    have hd : h2.data ++ t2.data = h1.data ++ t1.data := by
      have h3 := congrArg String.data he
      rw [String.data_append, String.data_append] at h3
      exact h3
    have e1 : (h2.data ++ t2.data).getD i ' ' = h2.data.getD i ' ' :=
      List.getD_append _ _ _ _ hi2
    have e2 : (h1.data ++ t1.data).getD i ' ' = h1.data.getD i ' ' :=
      List.getD_append _ _ _ _ hi1
    rw [hd, e2] at e1
    exact hne e1
  · rw [Bool.eq_false_iff]
    intro hp
    have hp2 : ((h1 ++ t1) ++ "/").data <+: (h2 ++ t2).data :=
      List.isPrefixOf_iff_prefix.mp hp
    rw [String.data_append, String.data_append, String.data_append] at hp2
    have hlen12 : i < (h1.data ++ t1.data).length := by
      rw [List.length_append]
      omega
    have hlen3 : i < ((h1.data ++ t1.data) ++ ("/" : String).data).length := by
      rw [List.length_append, List.length_append]
      omega
    have e3 := getD_of_prefix hp2 hlen3
    have e4 : ((h1.data ++ t1.data) ++ ("/" : String).data).getD i ' ' =
        (h1.data ++ t1.data).getD i ' ' := List.getD_append _ _ _ _ hlen12
    have e5 : (h1.data ++ t1.data).getD i ' ' = h1.data.getD i ' ' :=
      List.getD_append _ _ _ _ hi1
    have e6 : (h2.data ++ t2.data).getD i ' ' = h2.data.getD i ' ' :=
      List.getD_append _ _ _ _ hi2
    rw [e6, e4, e5] at e3
    exact hne e3.symm

theorem underDir_partial_of_full (t1 t2 : String) :
    underDir ("contracts/partial_match" ++ t2) ("contracts/full_match" ++ t1) = false :=
  underDir_head_ne "contracts/partial_match" "contracts/full_match" t2 t1 10
    (by decide) (by decide) (by decide)

theorem underDir_partial_manifest (t2 : String) :
    underDir ("contracts/partial_match" ++ t2) "manifest.json" = false := by
  have h : ("manifest.json" : String) = "manifest.json" ++ "" := by
    rw [String.append_empty]
  rw [h]
  exact underDir_head_ne "contracts/partial_match" "manifest.json" t2 "" 0
    (by decide) (by decide) (by decide)

/-- The effects the write phase of `storeMatch` is allowed to contain: plain
file writes that stay out of the subtree `dir`, and manifest bumps. -/
def writeOpOk (dir : String) : FsOp → Prop
  | .writeFileOp p _ => underDir dir p = false
  | .writeManifestOp => True
  | .rmdirRecursiveOp _ => False
  | .renameOp _ _ => False

theorem writeOpOk_not_rename {dir : String} {op : FsOp} (h : writeOpOk dir op) :
    isRenameOp op = false := by
  cases op with
  | writeFileOp p c => rfl
  | writeManifestOp => rfl
  | rmdirRecursiveOp p => exact h.elim
  | renameOp a b => exact h.elim

theorem mem_saveOps_cases {op : FsOp} {p c : String} (h : op ∈ saveOps p c) :
    op = .writeFileOp p c ∨ op = .writeManifestOp := by
  simp only [saveOps, List.mem_cons, List.not_mem_nil, or_false] at h
  exact h

theorem mem_storeSourcesOps {op : FsOp} {sanitize getAddr : String → String}
    {q : MatchQuality} {c a : String} {sources : List (String × String)}
    (h : op ∈ storeSourcesOps sanitize getAddr q c a sources) :
    (∃ pth cc, op = FsOp.writeFileOp pth cc ∧
      ∃ (b : Bool) (f : String), pth = relativeFilePath getAddr q c a b f) ∨
    op = FsOp.writeManifestOp := by
  unfold storeSourcesOps at h
  rcases List.mem_append.mp h with h | h
  · rcases List.mem_flatMap.mp h with ⟨pc, hpc, hop⟩
    rcases mem_saveOps_cases hop with h2 | h2
    · exact Or.inl ⟨_, _, h2, true, sanitize pc.1, rfl⟩
    · exact Or.inr h2
  · split at h
    · exact absurd h (List.not_mem_nil op)
    · rcases mem_saveOps_cases h with h2 | h2
      · exact Or.inl ⟨_, _, h2, false, "path-translation.json", rfl⟩
      · exact Or.inr h2

theorem mem_storeWriteOps {op : FsOp} {sanitize getAddr : String → String}
    {contract : CheckedContractLite} {m : Match} {addr : String}
    (h : op ∈ storeWriteOps sanitize getAddr .full contract m addr) :
    writeOpOk (relativeContractDir getAddr .partialMatch m.chainId addr) op := by
  have hfile : ∀ (b : Bool) (f cc : String),
      writeOpOk (relativeContractDir getAddr .partialMatch m.chainId addr)
        (FsOp.writeFileOp (relativeFilePath getAddr .full m.chainId addr b f) cc) := by
    intro b f cc
    show underDir _ _ = false
    obtain ⟨t1, ht1⟩ := relativeFilePath_head getAddr .full m.chainId addr b f
    obtain ⟨t2, ht2⟩ := relativeContractDir_head getAddr .partialMatch m.chainId addr
    rw [ht1, ht2]
    rw [show ("contracts/" ++ qualityDirName MatchQuality.full : String) =
        "contracts/full_match" from rfl]
    rw [show ("contracts/" ++ qualityDirName MatchQuality.partialMatch : String) =
        "contracts/partial_match" from rfl]
    exact underDir_partial_of_full t1 t2
  unfold storeWriteOps at h
  rcases List.mem_append.mp h with h5 | hF
  rotate_left
  · split at hF
    · exact absurd hF (List.not_mem_nil op)
    · rcases mem_saveOps_cases hF with rfl | rfl
      · exact hfile false "immutable-references.json" _
      · trivial
  rcases List.mem_append.mp h5 with h4 | hE
  rotate_left
  · split at hE
    · exact absurd hE (List.not_mem_nil op)
    · rcases mem_saveOps_cases hE with rfl | rfl
      · exact hfile false "library-map.json" _
      · trivial
  rcases List.mem_append.mp h4 with h3 | hD
  rotate_left
  · split at hD
    · rcases mem_saveOps_cases hD with rfl | rfl
      · exact hfile false "creator-tx-hash.txt" _
      · trivial
    · exact absurd hD (List.not_mem_nil op)
  rcases List.mem_append.mp h3 with h2 | hC
  rotate_left
  · split at hC
    · rcases mem_saveOps_cases hC with rfl | rfl
      · exact hfile false "constructor-args.txt" _
      · trivial
    · exact absurd hC (List.not_mem_nil op)
  rcases List.mem_append.mp h2 with hA | hB
  rotate_left
  · rcases mem_saveOps_cases hB with rfl | rfl
    · exact hfile false "metadata.json" _
    · trivial
  · rcases mem_storeSourcesOps hA with ⟨pth, cc, rfl, b, f, rfl⟩ | rfl
    · exact hfile b f cc
    · trivial

theorem applyOps_not_under (dir : String) (hm : underDir dir "manifest.json" = false) :
    ∀ (ops : List FsOp) (clocks : List Nat) (fs : RepoFs),
      (∀ e ∈ fs, underDir dir e.1 = false) →
      (∀ op ∈ ops, writeOpOk dir op) →
      ∀ e ∈ applyOps ops clocks fs, underDir dir e.1 = false := by
  intro ops
  induction ops with
  | nil => intro clocks fs hfs _ e he; exact hfs e he
  | cons op rest ih =>
    intro clocks fs hfs hops e he
    have hop := hops op (List.mem_cons_self _ _)
    cases op with
    | writeFileOp p c =>
      have hstep : applyOps (FsOp.writeFileOp p c :: rest) clocks fs =
          applyOps rest clocks (aset fs p c) := rfl
      rw [hstep] at he
      refine ih clocks (aset fs p c) ?_ (fun o ho => hops o (List.mem_cons_of_mem _ ho)) e he
      intro e' he'
      rcases mem_aset he' with h | h
      · exact hfs e' h
      · rw [h]
        exact hop
    | writeManifestOp =>
      have hstep : applyOps (FsOp.writeManifestOp :: rest) clocks fs =
          applyOps rest clocks.tail
            (aset fs "manifest.json" (manifestJson (clocks.headD 0))) := rfl
      rw [hstep] at he
      refine ih clocks.tail _ ?_ (fun o ho => hops o (List.mem_cons_of_mem _ ho)) e he
      intro e' he'
      rcases mem_aset he' with h | h
      · exact hfs e' h
      · rw [h]
        exact hm
    | rmdirRecursiveOp p => exact hop.elim
    | renameOp a b => exact hop.elim

/-- C4 amended: when the match is perfect (runtime or creation) and the
address is set, `storeMatch` first deletes any existing `partial_match`
directory with one direct recursive `rmdirSync` — no rename-aside happens
anywhere in the effect trace — and only then performs its writes, none of
which is a delete and none of which touches the `partial_match` subtree, so
that after the store no file under the partial directory remains. -/
theorem c4_amended (sanitize getAddr : String → String) (fs : RepoFs)
    (contract : CheckedContractLite) (m : Match) (addr : String)
    (haddr : m.address = some addr) (hane : addr ≠ "")
    (hperf : m.runtimeMatch = some .perfect ∨ m.creationMatch = some .perfect) :
    storeMatchOps sanitize getAddr fs contract m =
      .ok (deletePartialIfExistsOps getAddr fs m.chainId addr ++
        storeWriteOps sanitize getAddr .full contract m addr, none) ∧
    (∀ op ∈ deletePartialIfExistsOps getAddr fs m.chainId addr ++
        storeWriteOps sanitize getAddr .full contract m addr, isRenameOp op = false) ∧
    (∀ p, FsOp.rmdirRecursiveOp p ∉ storeWriteOps sanitize getAddr .full contract m addr) ∧
    (∀ (clocks : List Nat) (e : String × String),
      e ∈ applyOps (deletePartialIfExistsOps getAddr fs m.chainId addr ++
        storeWriteOps sanitize getAddr .full contract m addr) clocks fs →
      underDir (relativeContractDir getAddr .partialMatch m.chainId addr) e.1 = false) := by
  have hcond : storeCond m = true := by
    unfold storeCond
    rw [haddr]
    rcases hperf with h | h <;> rw [h] <;> simp [strTruthy, hane]
  have hgms : getMatchStatus m = some .perfect := by
    unfold getMatchStatus
    by_cases hcp : m.creationMatch = some .perfect
    · rw [if_pos hcp]
    · rw [if_neg hcp]
      rcases hperf with h | h
      · rw [h]
        rfl
      · exact absurd h hcp
  have hquality : statusToMatchQuality (getMatchStatus m) = some .full := by
    rw [hgms]
    rfl
  have hgetd : m.address.getD "" = addr := by
    rw [haddr]
    rfl
  have hmanifest : underDir (relativeContractDir getAddr .partialMatch m.chainId addr)
      "manifest.json" = false := by
    obtain ⟨t2, ht2⟩ := relativeContractDir_head getAddr .partialMatch m.chainId addr
    rw [ht2]
    rw [show ("contracts/" ++ qualityDirName MatchQuality.partialMatch : String) =
        "contracts/partial_match" from rfl]
    exact underDir_partial_manifest t2
  refine ⟨?_, ?_, ?_, ?_⟩
  · simp only [storeMatchOps]
    rw [if_pos hcond, hquality]
    dsimp only
    rw [if_pos hperf, hgetd]
  · intro op hop
    rcases List.mem_append.mp hop with h | h
    · unfold deletePartialIfExistsOps at h
      split at h
      · rw [List.mem_singleton.mp h]
        rfl
      · exact absurd h (List.not_mem_nil op)
    · exact writeOpOk_not_rename (mem_storeWriteOps h)
  · intro p hp
    exact (mem_storeWriteOps hp).elim
  · intro clocks e he
    unfold deletePartialIfExistsOps at he
    by_cases hex : fs.any (fun en =>
        underDir (relativeContractDir getAddr .partialMatch m.chainId addr) en.1) = true
    · rw [if_pos hex, List.singleton_append] at he
      have hstep : applyOps (FsOp.rmdirRecursiveOp
            (relativeContractDir getAddr .partialMatch m.chainId addr) ::
          storeWriteOps sanitize getAddr .full contract m addr) clocks fs =
          applyOps (storeWriteOps sanitize getAddr .full contract m addr) clocks
            (fs.filter (fun en => !underDir
              (relativeContractDir getAddr .partialMatch m.chainId addr) en.1)) := rfl
      rw [hstep] at he
      refine applyOps_not_under _ hmanifest _ clocks _ ?_
        (fun op hop => mem_storeWriteOps hop) e he
      intro e' he'
      have h2 := (List.mem_filter.mp he').2
      simpa using h2
    · rw [if_neg hex, List.nil_append] at he
      refine applyOps_not_under _ hmanifest _ clocks fs ?_
        (fun op hop => mem_storeWriteOps hop) e he
      intro e' he'
      cases hu : underDir (relativeContractDir getAddr .partialMatch m.chainId addr) e'.1 with
      | false => rfl
      | true => exact absurd (List.any_eq_true.mpr ⟨e', he', hu⟩) hex

def c4Fs : RepoFs := [("contracts/partial_match/1/0xA/metadata.json", "old")]

def c4Match : Match := mkMatch (some "0xA") "1" (some .perfect) none

def c4Contract : CheckedContractLite := ⟨"C", "MD", [("a.sol", "src")]⟩

def c4Ops : List FsOp :=
  [.rmdirRecursiveOp "contracts/partial_match/1/0xA",
   .writeFileOp "contracts/full_match/1/0xA/sources/a.sol" "src", .writeManifestOp,
   .writeFileOp "contracts/full_match/1/0xA/metadata.json" "MD", .writeManifestOp]

/-- C4 counterexample: promoting a partial match to a perfect one deletes the
`partial_match` directory with a direct recursive `rmdirSync`; the concrete
effect trace contains no rename at all, so the claimed rename-aside-then-rmtree
deletion does not happen. -/
theorem c4_counterexample :
    storeMatchOps (fun s => s) (fun s => s) c4Fs c4Contract c4Match = .ok (c4Ops, none) ∧
    c4Ops.all (fun op => !isRenameOp op) = true ∧
    FsOp.rmdirRecursiveOp "contracts/partial_match/1/0xA" ∈ c4Ops := by
  refine ⟨rfl, rfl, ?_⟩
  exact List.mem_cons_self _ _

theorem c4_amended_witness :
    storeMatchOps (fun s => s) (fun s => s) c4Fs c4Contract c4Match =
      .ok (deletePartialIfExistsOps (fun s => s) c4Fs "1" "0xA" ++
        storeWriteOps (fun s => s) (fun s => s) .full c4Contract c4Match "0xA", none) :=
  (c4_amended (fun s => s) (fun s => s) c4Fs c4Contract c4Match "0xA" rfl
    (by decide) (Or.inl rfl)).1

end Sourcify
